import Mathlib

/-!
Shallow embedding of the KLEE Firehose reporting subsystem: the value
model and XML serializer of `Firehose.cpp` / `Firehose.h`, the diagnostic
classifier and warning-deduplication cache of `ErrorHandling.cpp`, and a
trace model of the file-backed report lifecycle.  C++ `std::string` is
embedded as `List Char`, `unsigned` as `Nat` (the code only constructs,
compares and prints these values; no arithmetic is performed on them).
-/

namespace Firehose

/-- C++ `std::string`, embedded as its character list. -/
abbrev Str := List Char

/-- The default separator argument of `XML::mkString` (`sep = "\n"`). -/
def nl : Str := ['\n']

/-- The output loop of `XML::mkString`: `filtered[0] sep ... sep filtered[n-1]`.
For `i < size - 1` it writes the element and the separator, then the last
element alone. -/
def joinSep (sep : Str) : List Str → Str
  | [] => []
  | [s] => s
  | s :: t :: rest => s ++ sep ++ joinSep sep (t :: rest)

/-- The filtering loop of `XML::mkString`: keep the strings different from `""`. -/
def filterNE (ss : List Str) : List Str := ss.filter (fun s => !s.isEmpty)

/-- `XML::mkString(ss, sep)` (Firehose.cpp lines 26-41): drop the empty strings,
then join the rest with `sep`.  When every string is empty, the C++ loop bound
`filtered.size() - 1` underflows and the loop reads out of bounds; that
unsafe branch is modelled by `mkStringSafe` below (the Lean function totalises
it to `[]`, a branch no serializer caller reaches). -/
def mkString (ss : List Str) (sep : Str) : Str := joinSep sep (filterNE ss)

/-- The implicit precondition of `XML::mkString`: after dropping the empty
strings at least one element remains, so `filtered.size() - 1` does not
underflow and every access `filtered[i]` is in bounds. -/
def mkStringSafe (ss : List Str) : Prop := filterNE ss ≠ []

/-- The `unsigned` loop bound `filtered.size() - 1` of `XML::mkString`,
computed modulo 2^32 as 32-bit unsigned arithmetic does. -/
def mkStringLoopBound (n : Nat) : Nat := (n + 4294967295) % 4294967296

/-- `numberToString` (an `std::ostringstream` rendering of an unsigned value):
decimal digits, most significant first. -/
def natToStr (n : Nat) : Str :=
  if h : n < 10 then [Char.ofNat (48 + n)]
  else natToStr (n / 10) ++ [Char.ofNat (48 + n % 10)]
termination_by n
decreasing_by exact Nat.div_lt_self (by omega) (by omega)

/-- `Point` (column/line position, both C++ `unsigned`). -/
structure Point where
  column : Nat
  line : Nat
  deriving DecidableEq

/-- `dummyPoint = Point(0, 0)`, the reserved absent instance. -/
def dummyPoint : Point := ⟨0, 0⟩

/-- `Point::toXML` (Firehose.cpp lines 61-67). -/
def Point.toXML (p : Point) : Str :=
  if p = dummyPoint then []
  else "<point column=\"".data ++ natToStr p.column ++
    "\" line=\"".data ++ natToStr p.line ++ "\"/>".data

/-- `Range`: a pair of `Point`s. -/
structure Range where
  p1 : Point
  p2 : Point
  deriving DecidableEq

/-- `dummyRange = Range(dummyPoint, dummyPoint)`. -/
def dummyRange : Range := ⟨dummyPoint, dummyPoint⟩

/-- The strings `Range::toXML` pushes before calling `mkString`. -/
def Range.pieces (r : Range) : List Str :=
  ["<range>".data, r.p1.toXML, r.p2.toXML, "</range>".data]

/-- `Range::toXML` (Firehose.cpp lines 82-92). -/
def Range.toXML (r : Range) : Str :=
  if r = dummyRange then [] else mkString (Range.pieces r) nl

/-- `File`: a source-file path. -/
structure File where
  path : Str
  deriving DecidableEq

/-- `dummyFile = File("")`. -/
def dummyFile : File := ⟨[]⟩

/-- `File::toXML` (Firehose.cpp lines 107-111). -/
def File.toXML (f : File) : Str :=
  if f = dummyFile then []
  else "<file given-path=\"".data ++ f.path ++ "\"/>".data

/-- `Function`: a function name. -/
structure Function where
  name : Str
  deriving DecidableEq

/-- `dummyFunction = Function("")`. -/
def dummyFunction : Function := ⟨[]⟩

/-- `Function::toXML` (Firehose.cpp lines 126-130). -/
def Function.toXML (f : Function) : Str :=
  if f = dummyFunction then []
  else "<function name=\"".data ++ f.name ++ "\"/>".data

/-- `Location`: file, function, and a range and point of which at most one is
meaningful (Firehose.h lines 110-127). -/
structure Location where
  file : File
  func : Function
  range : Range
  point : Point
  deriving DecidableEq

/-- `dummyLocation = Location(dummyFile, dummyFunction, dummyRange)`. -/
def dummyLocation : Location := ⟨dummyFile, dummyFunction, dummyRange, dummyPoint⟩

/-- The range-based public constructor
`Location(file, function, range)` (Firehose.cpp lines 133-135): the point
member is initialised to `dummyPoint`. -/
def Location.fromRange (file : File) (func : Function) (range : Range) : Location :=
  ⟨file, func, range, dummyPoint⟩

/-- The point-based public constructor
`Location(file, function, point)` (Firehose.cpp lines 137-139): the range
member is initialised to `dummyRange`. -/
def Location.fromPoint (file : File) (func : Function) (point : Point) : Location :=
  ⟨file, func, dummyRange, point⟩

/-- The strings `Location::toXML` pushes before calling `mkString`. -/
def Location.pieces (l : Location) : List Str :=
  ["<location>".data, l.file.toXML, l.func.toXML, l.range.toXML, l.point.toXML,
    "</location>".data]

/-- `Location::toXML` (Firehose.cpp lines 158-170). -/
def Location.toXML (l : Location) : Str :=
  if l = dummyLocation then [] else mkString (Location.pieces l) nl

/-- `State`: one step of an execution trace.  The Firehose.cpp definitions use
only the location member: the constructor stores it, `operator==` compares it
and `toXML` renders it (lines 173-192). -/
structure State where
  location : Location
  deriving DecidableEq

/-- `dummyState`, whose location is `dummyLocation`. -/
def dummyState : State := ⟨dummyLocation⟩

/-- The strings `State::toXML` pushes before calling `mkString`. -/
def State.pieces (s : State) : List Str :=
  ["<state>".data, s.location.toXML, "</state>".data]

/-- `State::toXML` (Firehose.cpp lines 183-192). -/
def State.toXML (s : State) : Str :=
  if s = dummyState then [] else mkString (State.pieces s) nl

/-- `Trace`: an ordered sequence of `State`s. -/
structure Trace where
  states : List State
  deriving DecidableEq

/-- `dummyTrace = Trace(std::vector<State>(1, dummyState))`. -/
def dummyTrace : Trace := ⟨[dummyState]⟩

/-- The strings `Trace::toXML` pushes before calling `mkString`: the opening
tag, each state's serialization in order, the closing tag. -/
def Trace.pieces (t : Trace) : List Str :=
  "<trace>".data :: (t.states.map State.toXML ++ ["</trace>".data])

/-- `Trace::toXML` (Firehose.cpp lines 207-220). -/
def Trace.toXML (t : Trace) : Str :=
  if t = dummyTrace then [] else mkString (Trace.pieces t) nl

/-- `Message`: user-facing diagnostic text. -/
structure Message where
  msg : Str
  deriving DecidableEq

/-- `dummyMessage = Message("")`. -/
def dummyMessage : Message := ⟨[]⟩

/-- `Message::toXML` (Firehose.cpp lines 232-236). -/
def Message.toXML (m : Message) : Str :=
  if m = dummyMessage then []
  else "<message>".data ++ m.msg ++ "</message>".data

/-- `Issue`: message, location and optional trace. -/
structure Issue where
  message : Message
  location : Location
  trace : Trace
  deriving DecidableEq

/-- `dummyIssue = Issue(dummyMessage, dummyLocation, dummyTrace)`. -/
def dummyIssue : Issue := ⟨dummyMessage, dummyLocation, dummyTrace⟩

/-- The strings `Issue::toXML` pushes before calling `mkString`. -/
def Issue.pieces (i : Issue) : List Str :=
  ["<issue>".data, i.message.toXML, i.location.toXML, i.trace.toXML,
    "</issue>".data]

/-- `Issue::toXML` (Firehose.cpp lines 258-269). -/
def Issue.toXML (i : Issue) : Str :=
  if i = dummyIssue then [] else mkString (Issue.pieces i) nl

/-- `Results`: the ordered sequence of issues of one report. -/
structure Results where
  issues : List Issue
  deriving DecidableEq

/-- `dummyResults = Results(std::vector<Issue>(1, dummyIssue))`. -/
def dummyResults : Results := ⟨[dummyIssue]⟩

/-- The strings `Results::toXML` pushes before calling `mkString`: the opening
tag, each issue's serialization in insertion order, the closing tag. -/
def Results.pieces (r : Results) : List Str :=
  "<results>".data :: (r.issues.map Issue.toXML ++ ["</results>".data])

/-- `Results::toXML` (Firehose.cpp lines 282-295). -/
def Results.toXML (r : Results) : Str :=
  if r = dummyResults then [] else mkString (Results.pieces r) nl

/-- `Generator`: tool name and version. -/
structure Generator where
  name : Str
  version : Str
  deriving DecidableEq

/-- `dummyGenerator = Generator("", "")`. -/
def dummyGenerator : Generator := ⟨[], []⟩

/-- `Generator::toXML` (Firehose.cpp lines 313-318). -/
def Generator.toXML (g : Generator) : Str :=
  if g = dummyGenerator then []
  else "<generator name=\"".data ++ g.name ++
    "\" version=\"".data ++ g.version ++ "\"/>".data

/-- `Metadata`: report provenance (holds the generator). -/
structure Metadata where
  generator : Generator
  deriving DecidableEq

/-- `dummyMetadata = Metadata(dummyGenerator)`. -/
def dummyMetadata : Metadata := ⟨dummyGenerator⟩

/-- The strings `Metadata::toXML` pushes before calling `mkString`. -/
def Metadata.pieces (m : Metadata) : List Str :=
  ["<metadata>".data, m.generator.toXML, "</metadata>".data]

/-- `Metadata::toXML` (Firehose.cpp lines 336-346). -/
def Metadata.toXML (m : Metadata) : Str :=
  if m = dummyMetadata then [] else mkString (Metadata.pieces m) nl

/-- `Analysis`: the complete report (metadata followed by results). -/
structure Analysis where
  metadata : Metadata
  results : Results
  deriving DecidableEq

/-- `dummyAnalysis = Analysis(dummyMetadata, dummyResults)`. -/
def dummyAnalysis : Analysis := ⟨dummyMetadata, dummyResults⟩

/-- The strings `Analysis::toXML` pushes before calling `mkString`. -/
def Analysis.pieces (a : Analysis) : List Str :=
  ["<analysis>".data, a.metadata.toXML, a.results.toXML, "</analysis>".data]

/-- `Analysis::toXML` (Firehose.cpp lines 364-374). -/
def Analysis.toXML (a : Analysis) : Str :=
  if a = dummyAnalysis then [] else mkString (Analysis.pieces a) nl

/-- `Failure`: taxonomy id, message and optional location (Firehose.h lines
227-247). -/
structure Failure where
  id : Str
  message : Message
  location : Location
  deriving DecidableEq

/-- `dummyFailure = Failure(dummyString, dummyMessage, dummyLocation)`. -/
def dummyFailure : Failure := ⟨[], dummyMessage, dummyLocation⟩

/-- Modelled from the spec: the body of `Failure::toXML` is not among the
repository's source files (the header declares it, `klee_vmessage` and the
unit tests call it).  Per the serialization contract, the absent instance
renders nothing; otherwise a failure element carrying a `failure-id`
attribute wraps the location and the message, children that serialize to the
empty string are skipped, and the rest are joined with newlines (the order
location-then-message follows the unit tests' expected output). -/
def Failure.pieces (f : Failure) : List Str :=
  ["<failure failure-id=\"".data ++ f.id ++ "\">".data,
    f.location.toXML, f.message.toXML, "</failure>".data]

/-- Modelled from the spec: see `Failure.pieces`. -/
def Failure.toXML (f : Failure) : Str :=
  if f = dummyFailure then [] else mkString (Failure.pieces f) nl

/-- `Info`: taxonomy id and message, never a location (Firehose.h lines
450-456). -/
structure Info where
  id : Str
  message : Message
  deriving DecidableEq

/-- `dummyInfo = Info("", dummyMessage)`. -/
def dummyInfo : Info := ⟨[], dummyMessage⟩

/-- Modelled from the spec: the body of `Info::toXML` is not among the
repository's source files (the header declares it, `klee_vmessage` calls it).
Per the serialization contract, the absent instance renders nothing; otherwise
an info element carrying the taxonomy id wraps the message. -/
def Info.pieces (i : Info) : List Str :=
  ["<info info-id=\"".data ++ i.id ++ "\">".data, i.message.toXML,
    "</info>".data]

/-- Modelled from the spec: see `Info.pieces`. -/
def Info.toXML (i : Info) : Str :=
  if i = dummyInfo then [] else mkString (Info.pieces i) nl

/-! ## Diagnostic classifier (ErrorHandling.cpp) -/

/-- `strncmp(msg, pre, strlen(pre)) == 0`: the literal `pre` matches the start
of `msg` (when `msg` is shorter, its terminator mismatches the next literal
character, so the comparison fails). -/
def startsWith : Str → Str → Bool
  | [], _ => true
  | _ :: _, [] => false
  | c :: p, d :: s => c == d && startsWith p s

/-- `strstr(hay, needle) != NULL`: `needle` occurs somewhere in `hay`. -/
def containsStr (needle : Str) : Str → Bool
  | [] => startsWith needle []
  | c :: t => startsWith needle (c :: t) || containsStr needle t

/-- The parallel `message[]` / `id[]` arrays of
`determineFirehoseFailureInfoId` (ErrorHandling.cpp lines 104-130), in
declaration order. -/
def msgTable : List (Str × Str) :=
  [("undefined reference to function".data, "undefined-function-reference".data),
    ("undefined reference to variable".data, "undefined-variable-reference".data),
    ("calling external".data, "calling-external".data),
    ("calling __user_main with extra arguments".data, "calling-user-main".data),
    ("Large alloc".data, "large-alloc".data),
    ("execve".data, "execve".data),
    ("executable has module level assembly".data, "module-level-assembly".data),
    ("unable to load symbol".data, "symbol-loading".data),
    ("failed external call".data, "external-call".data)]

/-- The scanning loop of `determineFirehoseFailureInfoId`: top to bottom, the
first entry whose literal matches the start of the message returns its id. -/
def scanTable : List (Str × Str) → Str → Option Str
  | [], _ => none
  | (pre, ident) :: rest, msg =>
    if startsWith pre msg then some ident else scanTable rest msg

/-- `determineFirehoseFailureInfoId` (ErrorHandling.cpp lines 102-149): scan
the prefix table; failing that, check three substrings anywhere in the
message; failing that, return `"other"`. -/
def classify (msg : Str) : Str :=
  match scanTable msgTable msg with
  | some ident => ident
  | none =>
    if containsStr "has inline asm".data msg then "inline-asm".data
    else if containsStr "silently ignoring".data msg then "silently-ignoring".data
    else if containsStr "when main() has less than two arguments".data msg then
      "posix-runtime".data
    else "other".data

/-- The two severity classes of the taxonomy. -/
inductive Severity where
  | info
  | failure
  deriving DecidableEq

/-- The severity class attached to each taxonomy id by the source's own
annotations: the `// infos` / `// failures` comments splitting the arrays of
`determineFirehoseFailureInfoId` (failures: `"symbol-loading"`,
`"external-call"`; the secondary pass marks `"posix-runtime"` `// failure`
and the rest `// info`), matching the header comment on `Failure` that the
only sanctioned failure ids are `"symbol-loading"` and `"external-call"`
plus the posix-runtime case. -/
def idSeverity (ident : Str) : Severity :=
  if ident = "symbol-loading".data ∨ ident = "external-call".data ∨
      ident = "posix-runtime".data then
    Severity.failure
  else Severity.info

/-- The element `klee_vmessage` writes to the Firehose file. -/
inductive FirehoseElem where
  | infoElem (i : Info)
  | failureElem (f : Failure)
  deriving DecidableEq

/-- The Firehose branch of `klee_vmessage` (ErrorHandling.cpp lines 176-192):
with a non-null prefix, classify the formatted message; a prefix starting
with `"WARNING"` or equal to `"NOTE"` yields an `Info`, the `"ERROR"` prefix
yields a `Failure` (with the default `dummyLocation`), anything else writes
no element. -/
def firehoseElement (pfx : Str) (msg : Str) : Option FirehoseElem :=
  let elementId := classify msg
  if startsWith "WARNING".data pfx || pfx == "NOTE".data then
    some (FirehoseElem.infoElem ⟨elementId, ⟨msg⟩⟩)
  else if pfx == "ERROR".data then
    some (FirehoseElem.failureElem ⟨elementId, ⟨msg⟩, dummyLocation⟩)
  else none

/-! ## Warning deduplication cache (`klee_warning_once`) -/

/-- The key normalization of `klee_warning_once` (ErrorHandling.cpp lines
240-246): a message beginning with `"calling external"` is replaced by that
fixed string, anything else is kept verbatim. -/
def normalizeMsg (msg : Str) : Str :=
  if startsWith "calling external".data msg then "calling external".data
  else msg

/-- The process-wide `static std::set` of seen keys; the origin identity (the
opaque `const void *id`) is embedded as a `Nat`. -/
structure OnceState where
  keys : List (Nat × Str)
  deriving DecidableEq

/-- The decision of `klee_warning_once` (ErrorHandling.cpp lines 236-255):
emit iff the key (origin, normalized message) is not in the set, inserting it
on first occurrence. -/
def shouldEmitOnce (st : OnceState) (origin : Nat) (msg : Str) : Bool × OnceState :=
  let key := (origin, normalizeMsg msg)
  if key ∈ st.keys then (false, st)
  else (true, ⟨key :: st.keys⟩)

/-- A sequence of `klee_warning_once` calls from the empty cache: the list of
emit decisions in call order. -/
def runCalls (st : OnceState) : List (Nat × Str) → List Bool
  | [] => []
  | (o, m) :: rest =>
    let r := shouldEmitOnce st o m
    r.1 :: runCalls r.2 rest

/-! ## File-backed report lifecycle (`klee_firehose_file`) -/

/-- The Firehose report file: whether the handle is open, and the chunks
written to it so far, in order. -/
structure FhFile where
  isOpen : Bool
  chunks : List Str
  deriving DecidableEq

/-- `fprintf(klee_firehose_file, ...)`: appends a chunk while the file is
open. -/
def fhWrite (f : FhFile) (s : Str) : FhFile :=
  if f.isOpen then ⟨true, f.chunks ++ [s]⟩ else f

/-- The serialization of the element `klee_vmessage` writes. -/
def elemXML : FirehoseElem → Str
  | FirehoseElem.infoElem i => i.toXML
  | FirehoseElem.failureElem f => f.toXML

/-- The effect of `klee_vmessage` on the Firehose file: with a null prefix or
a closed file nothing is written; otherwise the chosen element's
serialization followed by a newline (`fprintf(..., "%s\n", ...)`). -/
def vmessageFh (pfx : Option Str) (msg : Str) (f : FhFile) : FhFile :=
  match pfx with
  | none => f
  | some p =>
    if f.isOpen then
      match firehoseElement p msg with
      | some e => fhWrite f (elemXML e ++ nl)
      | none => f
    else f

/-- The first terminating chunk `close_firehose_file` writes. -/
def closeResultsChunk : Str := "</results>\n".data

/-- The second terminating chunk `close_firehose_file` writes. -/
def closeAnalysisChunk : Str := "</analysis>\n".data

/-- `close_firehose_file` (ErrorHandling.cpp lines 210-217): if the file is
open, write the two closing tags and close it; otherwise do nothing. -/
def closeFirehoseFile (f : FhFile) : FhFile :=
  if f.isOpen then
    ⟨false, ((fhWrite (fhWrite f closeResultsChunk) closeAnalysisChunk)).chunks⟩
  else f

/-- The diagnostic events of one process run. -/
inductive Event where
  | message (msg : Str)
  | warning (msg : Str)
  | warningOnce (origin : Nat) (msg : Str)
  | errorEvent (msg : Str)
  deriving DecidableEq

/-- `klee_error` (ErrorHandling.cpp lines 219-226): route the message with
the `"ERROR"` prefix, then close the Firehose file; `exit(1)` follows, so
nothing runs afterwards. -/
def kleeError (msg : Str) (f : FhFile) : FhFile :=
  closeFirehoseFile (vmessageFh (some "ERROR".data) msg f)

/-- One process run over the event list: messages route with a null prefix,
warnings with `"WARNING"`, once-warnings with `"WARNING ONCE"` when the
dedup cache admits them, and the first error event ends the process via
`klee_error`. -/
def runEvents (f : FhFile) (st : OnceState) : List Event → FhFile
  | [] => f
  | Event.message m :: rest => runEvents (vmessageFh none m f) st rest
  | Event.warning m :: rest =>
    runEvents (vmessageFh (some "WARNING".data) m f) st rest
  | Event.warningOnce o m :: rest =>
    let r := shouldEmitOnce st o m
    runEvents (if r.1 then vmessageFh (some "WARNING ONCE".data) m f else f)
      r.2 rest
  | Event.errorEvent m :: _ => kleeError m f

/-- Whether the run contains an error event (and hence ends via
`klee_error`). -/
def hasErrorEvent : List Event → Bool
  | [] => false
  | Event.errorEvent _ :: _ => true
  | _ :: rest => hasErrorEvent rest

/-! ## Predicates about serialized output -/

/-- No two adjacent characters of the string are both newlines. -/
def noNN : Str → Bool
  | [] => true
  | [_] => true
  | a :: b :: t => !(a == '\n' && b == '\n') && noNN (b :: t)

/-- The string contains no two consecutive newline characters. -/
abbrev nnFree (s : Str) : Prop := noNN s = true

/-- A non-empty serialized fragment: free of consecutive newlines, starting
with `<` and ending with `>` (every rendered element has this shape). -/
abbrev wrapped (s : Str) : Prop :=
  nnFree s ∧ s.head? = some '<' ∧ s.getLast? = some '>'

/-- Every serializer output is either empty (absent node) or a wrapped
fragment. -/
abbrev tidy (s : Str) : Prop := s = [] ∨ wrapped s

/-- The location's leaf strings contain no two consecutive newlines. -/
abbrev Location.clean (l : Location) : Prop :=
  nnFree l.file.path ∧ nnFree l.func.name

/-- The state's leaf strings contain no two consecutive newlines. -/
abbrev State.clean (s : State) : Prop := Location.clean s.location

/-- The trace's leaf strings contain no two consecutive newlines. -/
abbrev Trace.clean (t : Trace) : Prop := ∀ s ∈ t.states, State.clean s

/-- The message text contains no two consecutive newlines. -/
abbrev Message.clean (m : Message) : Prop := nnFree m.msg

/-- The issue's leaf strings contain no two consecutive newlines. -/
abbrev Issue.clean (i : Issue) : Prop :=
  Message.clean i.message ∧ Location.clean i.location ∧ Trace.clean i.trace

/-- The leaf strings of every issue contain no two consecutive newlines. -/
abbrev Results.clean (r : Results) : Prop := ∀ i ∈ r.issues, Issue.clean i

/-- The generator's name and version contain no two consecutive newlines. -/
abbrev Generator.clean (g : Generator) : Prop :=
  nnFree g.name ∧ nnFree g.version

/-- The metadata's leaf strings contain no two consecutive newlines. -/
abbrev Metadata.clean (m : Metadata) : Prop := Generator.clean m.generator

/-- The analysis's leaf strings contain no two consecutive newlines. -/
abbrev Analysis.clean (a : Analysis) : Prop :=
  Metadata.clean a.metadata ∧ Results.clean a.results

/-- The failure's leaf strings contain no two consecutive newlines. -/
abbrev Failure.clean (f : Failure) : Prop :=
  nnFree f.id ∧ Message.clean f.message ∧ Location.clean f.location

/-- Neither of the two terminating chunks occurs in the list. -/
def chunksOK (l : List Str) : Prop :=
  closeResultsChunk ∉ l ∧ closeAnalysisChunk ∉ l

/-! ## Claim C1 -/

/-- Claim C1: for every value-model and report-tree type (Point, Range, File,
Function, Location, Message, State, Trace, Issue, Failure, Results,
Generator, Metadata, Analysis), serializing that type's reserved
absent-sentinel instance yields the empty string. -/
theorem c1_absent_serializes_empty :
    Point.toXML dummyPoint = [] ∧ Range.toXML dummyRange = [] ∧
    File.toXML dummyFile = [] ∧ Function.toXML dummyFunction = [] ∧
    Location.toXML dummyLocation = [] ∧ Message.toXML dummyMessage = [] ∧
    State.toXML dummyState = [] ∧ Trace.toXML dummyTrace = [] ∧
    Issue.toXML dummyIssue = [] ∧ Failure.toXML dummyFailure = [] ∧
    Results.toXML dummyResults = [] ∧ Generator.toXML dummyGenerator = [] ∧
    Metadata.toXML dummyMetadata = [] ∧ Analysis.toXML dummyAnalysis = [] := by
  refine ⟨rfl, rfl, rfl, rfl, rfl, rfl, rfl, rfl, rfl, rfl, rfl, rfl, rfl, rfl⟩

/-! ## Claim C5 -/

/-- Claim C5: the message `"unable to load symbol(X)"` classifies to
`"symbol-loading"`, whose severity class per the source's table annotations
is failure, and under the error prefix it is emitted as a `Failure` element
(never an `Info`). -/
theorem c5_symbol_loading_is_failure :
    classify "unable to load symbol(X)".data = "symbol-loading".data ∧
    idSeverity (classify "unable to load symbol(X)".data) = Severity.failure ∧
    firehoseElement "ERROR".data "unable to load symbol(X)".data =
      some (FirehoseElem.failureElem
        ⟨"symbol-loading".data, ⟨"unable to load symbol(X)".data⟩,
          dummyLocation⟩) ∧
    (∀ i : Info, firehoseElement "ERROR".data "unable to load symbol(X)".data ≠
      some (FirehoseElem.infoElem i)) := by
  refine ⟨by decide, by decide, by decide, ?_⟩
  intro i h
  rw [show firehoseElement "ERROR".data "unable to load symbol(X)".data =
    some (FirehoseElem.failureElem
      ⟨"symbol-loading".data, ⟨"unable to load symbol(X)".data⟩,
        dummyLocation⟩) by decide] at h
  exact FirehoseElem.noConfusion (Option.some.inj h)

/-! ## Claim C7 -/

/-- Claim C7: serializing `Analysis(Metadata(Generator("t","1.0")),
Results([]))` yields a document with an empty results block and no issue
elements — the empty-issue-list `Results` is distinct from the absent
sentinel and still renders its block — and the generator element renders
with `name="t" version="1.0"`. -/
theorem c7_empty_results_document :
    (⟨[]⟩ : Results) ≠ dummyResults ∧
    Results.toXML ⟨[]⟩ = "<results>\n</results>".data ∧
    Generator.toXML ⟨"t".data, "1.0".data⟩ =
      "<generator name=\"t\" version=\"1.0\"/>".data ∧
    Analysis.toXML ⟨⟨⟨"t".data, "1.0".data⟩⟩, ⟨[]⟩⟩ =
      "<analysis>\n<metadata>\n<generator name=\"t\" version=\"1.0\"/>\n</metadata>\n<results>\n</results>\n</analysis>".data := by
  refine ⟨by decide, by decide, by decide, by decide⟩

/-! ## Claim C9 -/

/-- Claim C9: every `Location` produced by either public constructor leaves
the unused span field at its absent sentinel — the range constructor stores
`dummyPoint`, the point constructor stores `dummyRange` — so the range and
the point are never both present (non-absent) simultaneously. -/
theorem c9_location_span_exclusive :
    (∀ (f : File) (fn : Function) (r : Range),
      (Location.fromRange f fn r).point = dummyPoint) ∧
    (∀ (f : File) (fn : Function) (p : Point),
      (Location.fromPoint f fn p).range = dummyRange) ∧
    (∀ (f : File) (fn : Function) (r : Range),
      ¬((Location.fromRange f fn r).range ≠ dummyRange ∧
        (Location.fromRange f fn r).point ≠ dummyPoint)) ∧
    (∀ (f : File) (fn : Function) (p : Point),
      ¬((Location.fromPoint f fn p).range ≠ dummyRange ∧
        (Location.fromPoint f fn p).point ≠ dummyPoint)) := by
  refine ⟨fun _ _ _ => rfl, fun _ _ _ => rfl, ?_, ?_⟩
  · intro f fn r h
    exact h.2 rfl
  · intro f fn p h
    exact h.1 rfl

/-- Claim C9 witness: the two constructors at concrete arguments. -/
theorem c9_location_span_exclusive_witness :
    (Location.fromRange ⟨"t.c".data⟩ ⟨"f".data⟩ ⟨⟨1, 2⟩, ⟨3, 4⟩⟩).point =
      dummyPoint ∧
    ¬((Location.fromPoint ⟨"t.c".data⟩ ⟨"f".data⟩ ⟨42, 3⟩).range ≠ dummyRange ∧
      (Location.fromPoint ⟨"t.c".data⟩ ⟨"f".data⟩ ⟨42, 3⟩).point ≠ dummyPoint) :=
  ⟨c9_location_span_exclusive.1 ⟨"t.c".data⟩ ⟨"f".data⟩ ⟨⟨1, 2⟩, ⟨3, 4⟩⟩,
    c9_location_span_exclusive.2.2.2 ⟨"t.c".data⟩ ⟨"f".data⟩ ⟨42, 3⟩⟩

/-! ## Claim C4 -/

/-- Claim C4: `shouldEmitOnce` returns true precisely when the key (origin,
normalized message) is not yet in the process-wide set, inserting it then;
the normalization collapses every `"calling external"`-prefixed message to
the fixed string and keeps anything else verbatim.  Hence the two
calling-external messages from one origin yield true then false, while the
same message from two distinct origins yields true twice. -/
theorem c4_dedup_cache :
    (∀ (st : OnceState) (o : Nat) (m : Str),
      ((shouldEmitOnce st o m).1 = true ↔ (o, normalizeMsg m) ∉ st.keys)) ∧
    (∀ (st : OnceState) (o : Nat) (m : Str),
      (shouldEmitOnce st o m).2.keys =
        if (o, normalizeMsg m) ∈ st.keys then st.keys
        else (o, normalizeMsg m) :: st.keys) ∧
    (∀ m : Str, startsWith "calling external".data m = true →
      normalizeMsg m = "calling external".data) ∧
    (∀ m : Str, startsWith "calling external".data m = false →
      normalizeMsg m = m) ∧
    runCalls ⟨[]⟩ [(0, "calling external: foo(1)".data),
      (0, "calling external: bar(2)".data)] = [true, false] ∧
    (∀ (o1 o2 : Nat) (m : Str), o1 ≠ o2 →
      runCalls ⟨[]⟩ [(o1, m), (o2, m)] = [true, true]) := by
  refine ⟨?_, ?_, ?_, ?_, by decide, ?_⟩
  · intro st o m
    by_cases h : (o, normalizeMsg m) ∈ st.keys
    · simp [shouldEmitOnce, h]
    · simp [shouldEmitOnce, h]
  · intro st o m
    by_cases h : (o, normalizeMsg m) ∈ st.keys
    · simp [shouldEmitOnce, h]
    · simp [shouldEmitOnce, h]
  · intro m h
    simp [normalizeMsg, h]
  · intro m h
    simp [normalizeMsg, h]
  · intro o1 o2 m h
    simp [runCalls, shouldEmitOnce, Ne.symm h]

/-- Claim C4 witness: distinct origins 0 and 1 with the same message both
emit. -/
theorem c4_dedup_cache_witness :
    (0 : Nat) ≠ 1 ∧
    runCalls ⟨[]⟩ [(0, "Out of memory".data), (1, "Out of memory".data)] =
      [true, true] :=
  ⟨by decide,
    c4_dedup_cache.2.2.2.2.2 0 1 "Out of memory".data (by decide)⟩

/-! ## Claim C6 -/

/-- Claim C6: `Results` serialization preserves insertion order verbatim:
appending issues A, B, C in that order emits A's markup, then B's, then C's,
between the opening and closing results tags. -/
theorem c6_results_insertion_order (a b c : Issue)
    (ha : a.toXML ≠ []) (hb : b.toXML ≠ []) (hc : c.toXML ≠ []) :
    Results.toXML ⟨[a, b, c]⟩ =
      "<results>".data ++ nl ++ a.toXML ++ nl ++ b.toXML ++ nl ++ c.toXML ++
        nl ++ "</results>".data := by
  have hne : (⟨[a, b, c]⟩ : Results) ≠ dummyResults := by
    intro h
    injection h with h'
    simp [dummyResults] at h'
  rw [Results.toXML, if_neg hne]
  have ea : a.toXML.isEmpty = false := by
    cases h : a.toXML with
    | nil => exact absurd h ha
    | cons x t => rfl
  have eb : b.toXML.isEmpty = false := by
    cases h : b.toXML with
    | nil => exact absurd h hb
    | cons x t => rfl
  have ec : c.toXML.isEmpty = false := by
    cases h : c.toXML with
    | nil => exact absurd h hc
    | cons x t => rfl
  simp [Results.pieces, mkString, filterNE, List.filter, ea, eb, ec, joinSep,
    nl, List.append_assoc]

/-- Claim C6 witness: three concrete issues whose serializations are
non-empty, in insertion order. -/
theorem c6_results_insertion_order_witness :
    Results.toXML ⟨[⟨⟨"a".data⟩, dummyLocation, dummyTrace⟩,
      ⟨⟨"b".data⟩, dummyLocation, dummyTrace⟩,
      ⟨⟨"c".data⟩, dummyLocation, dummyTrace⟩]⟩ =
      "<results>".data ++ nl ++
        Issue.toXML ⟨⟨"a".data⟩, dummyLocation, dummyTrace⟩ ++ nl ++
        Issue.toXML ⟨⟨"b".data⟩, dummyLocation, dummyTrace⟩ ++ nl ++
        Issue.toXML ⟨⟨"c".data⟩, dummyLocation, dummyTrace⟩ ++ nl ++
        "</results>".data :=
  c6_results_insertion_order _ _ _ (by decide) (by decide) (by decide)

/-! ## Claim C10 -/

/-- A piece list headed by a non-empty string survives the empty-string
filter, so `mkString`'s precondition holds. -/
lemma mkStringSafe_cons (s : Str) (ss : List Str) (h : s ≠ []) :
    mkStringSafe (s :: ss) := by
  have he : s.isEmpty = false := by
    cases hh : s with
    | nil => exact absurd hh h
    | cons x t => rfl
  simp [mkStringSafe, filterNE, List.filter_cons, he]

/-- Claim C10: `XML::mkString` is safe only when at least one input string
survives the empty-string filter: with all strings empty the `unsigned` loop
bound `filtered.size() - 1` wraps around to `2^32 - 1` (out-of-bounds reads
follow), while with `0 < n` elements it is the ordinary `n - 1`; and every
`toXML` caller establishes the precondition because the piece list it passes
always starts with a non-empty literal tag string. -/
theorem c10_mkString_precondition :
    (∀ ss : List Str, (¬ mkStringSafe ss) ↔ ∀ s ∈ ss, s = []) ∧
    mkStringLoopBound 0 = 4294967295 ∧
    (∀ n : Nat, 0 < n → n < 4294967296 → mkStringLoopBound n = n - 1) ∧
    (∀ r : Range, mkStringSafe (Range.pieces r)) ∧
    (∀ l : Location, mkStringSafe (Location.pieces l)) ∧
    (∀ s : State, mkStringSafe (State.pieces s)) ∧
    (∀ t : Trace, mkStringSafe (Trace.pieces t)) ∧
    (∀ i : Issue, mkStringSafe (Issue.pieces i)) ∧
    (∀ r : Results, mkStringSafe (Results.pieces r)) ∧
    (∀ m : Metadata, mkStringSafe (Metadata.pieces m)) ∧
    (∀ a : Analysis, mkStringSafe (Analysis.pieces a)) ∧
    (∀ f : Failure, mkStringSafe (Failure.pieces f)) ∧
    (∀ i : Info, mkStringSafe (Info.pieces i)) := by
  refine ⟨?_, by decide, ?_, ?_, ?_, ?_, ?_, ?_, ?_, ?_, ?_, ?_, ?_⟩
  · intro ss
    simp [mkStringSafe, filterNE, List.filter_eq_nil_iff, List.isEmpty_iff]
  · intro n h1 h2
    simp only [mkStringLoopBound]
    omega
  · exact fun r => mkStringSafe_cons _ _ (by decide)
  · exact fun l => mkStringSafe_cons _ _ (by decide)
  · exact fun s => mkStringSafe_cons _ _ (by decide)
  · exact fun t => mkStringSafe_cons _ _ (by decide)
  · exact fun i => mkStringSafe_cons _ _ (by decide)
  · exact fun r => mkStringSafe_cons _ _ (by decide)
  · exact fun m => mkStringSafe_cons _ _ (by decide)
  · exact fun a => mkStringSafe_cons _ _ (by decide)
  · exact fun f =>
      mkStringSafe_cons _ _
        (List.append_ne_nil_of_left_ne_nil
          (List.append_ne_nil_of_left_ne_nil (by decide) _) _)
  · exact fun i =>
      mkStringSafe_cons _ _
        (List.append_ne_nil_of_left_ne_nil
          (List.append_ne_nil_of_left_ne_nil (by decide) _) _)

/-- Claim C10 witness: the all-empty input violates the precondition, a
concrete piece list satisfies it, and the loop bound at size 3 is 2. -/
theorem c10_mkString_precondition_witness :
    (¬ mkStringSafe [[], [], []]) ∧
    mkStringSafe (Range.pieces dummyRange) ∧
    mkStringLoopBound 3 = 2 :=
  ⟨(c10_mkString_precondition.1 [[], [], []]).2 (by decide),
    c10_mkString_precondition.2.2.2.1 dummyRange,
    c10_mkString_precondition.2.2.1 3 (by decide) (by decide)⟩

/-! ## Claim C3 -/

/-- The scanning loop of `determineFirehoseFailureInfoId` returns the id of
the first matching entry: if entry `i` matches and no earlier entry does,
the scan answers entry `i`'s id. -/
lemma scanTable_first :
    ∀ (tbl : List (Str × Str)) (msg : Str) (i : Nat) (pre ident : Str),
      tbl[i]? = some (pre, ident) → startsWith pre msg = true →
      (∀ e ∈ tbl.take i, startsWith e.1 msg = false) →
      scanTable tbl msg = some ident := by
  intro tbl
  induction tbl with
  | nil =>
    intro msg i pre ident hget
    simp at hget
  | cons hd tl ih =>
    intro msg i pre ident hget hsw hbefore
    cases i with
    | zero =>
      obtain rfl : hd = (pre, ident) := by
        simpa using hget
      simp [scanTable, hsw]
    | succ n =>
      have h0 : startsWith hd.1 msg = false := by
        refine hbefore hd ?_
        simp [List.take_succ_cons]
      obtain ⟨p, q⟩ := hd
      rw [scanTable, if_neg (by simp_all)]
      refine ih msg n pre ident (by simpa using hget) hsw ?_
      intro e he
      exact hbefore e (by simp [List.take_succ_cons, he])

/-- Every id the scan returns comes from the table's id column. -/
lemma scanTable_mem_ids :
    ∀ (tbl : List (Str × Str)) (msg ident : Str),
      scanTable tbl msg = some ident → ident ∈ tbl.map Prod.snd := by
  intro tbl
  induction tbl with
  | nil =>
    intro msg ident h
    simp [scanTable] at h
  | cons hd tl ih =>
    intro msg ident h
    obtain ⟨p, q⟩ := hd
    rw [scanTable] at h
    by_cases hs : startsWith p msg = true
    · rw [if_pos hs] at h
      simp_all
    · rw [if_neg hs] at h
      exact List.mem_cons_of_mem _ (ih msg ident h)

/-- A message beginning with `"calling external"` classifies to
`"calling-external"`: its first character `'c'` rules out the two earlier
table entries (both start with `'u'`), so the third entry is the first
match. -/
lemma classify_calling_external (msg : Str)
    (h : startsWith "calling external".data msg = true) :
    classify msg = "calling-external".data := by
  obtain ⟨mt, rfl⟩ : ∃ mt, msg = 'c' :: mt := by
    cases msg with
    | nil => exact absurd h (by decide)
    | cons m0 mt =>
      have h' : ('c' == m0 && startsWith "alling external".data mt) = true := h
      have hm : 'c' = m0 := by
        simp only [Bool.and_eq_true, beq_iff_eq] at h'
        exact h'.1
      exact ⟨mt, by rw [← hm]⟩
  have h1 : startsWith "undefined reference to function".data ('c' :: mt) =
      false := rfl
  have h2 : startsWith "undefined reference to variable".data ('c' :: mt) =
      false := rfl
  simp [classify, msgTable, scanTable, h1, h2, h]

/-- Claim C3 (amended): the classifier scans the ordered prefix table top to
bottom and the first matching entry's id wins; when no prefix matches, the
secondary pass checks the three substrings in order and falls back to
`"other"`; every message beginning with `"calling external"` classifies to
`"calling-external"`; a message containing `"silently ignoring"` classifies
to `"silently-ignoring"` provided no table prefix matches and the message
does not contain `"has inline asm"`; and the classifier is total, always
answering one of the thirteen fixed identifiers. -/
theorem c3_classifier_first_match :
    (∀ (msg : Str) (i : Nat) (pre ident : Str),
      msgTable[i]? = some (pre, ident) → startsWith pre msg = true →
      (∀ e ∈ msgTable.take i, startsWith e.1 msg = false) →
      classify msg = ident) ∧
    (∀ msg : Str, scanTable msgTable msg = none →
      containsStr "has inline asm".data msg = false →
      containsStr "silently ignoring".data msg = true →
      classify msg = "silently-ignoring".data) ∧
    (∀ msg : Str, scanTable msgTable msg = none →
      containsStr "has inline asm".data msg = false →
      containsStr "silently ignoring".data msg = false →
      containsStr "when main() has less than two arguments".data msg = false →
      classify msg = "other".data) ∧
    (∀ msg : Str, startsWith "calling external".data msg = true →
      classify msg = "calling-external".data) ∧
    (∀ msg : Str, classify msg ∈ msgTable.map Prod.snd ++
      ["inline-asm".data, "silently-ignoring".data, "posix-runtime".data,
        "other".data]) := by
  refine ⟨?_, ?_, ?_, classify_calling_external, ?_⟩
  · intro msg i pre ident hget hsw hb
    have hscan := scanTable_first msgTable msg i pre ident hget hsw hb
    simp [classify, hscan]
  · intro msg h0 h1 h2
    simp [classify, h0, h1, h2]
  · intro msg h0 h1 h2 h3
    simp [classify, h0, h1, h2, h3]
  · intro msg
    cases h : scanTable msgTable msg with
    | some ident =>
      simp only [classify, h]
      exact List.mem_append_left _ (scanTable_mem_ids _ _ _ h)
    | none =>
      simp only [classify, h]
      split_ifs <;> decide

/-- Claim C3 counterexample: a message that both begins with
`"calling external"` and contains `"silently ignoring"` classifies to
`"calling-external"`, not `"silently-ignoring"` — the primary prefix table
outranks the substring pass, so "every message containing silently ignoring
anywhere classifies to silently-ignoring" fails as stated. -/
theorem c3_classifier_counterexample :
    containsStr "silently ignoring".data
      "calling external: silently ignoring".data = true ∧
    classify "calling external: silently ignoring".data =
      "calling-external".data ∧
    "calling-external".data ≠ "silently-ignoring".data := by
  refine ⟨by decide, by decide, by decide⟩

/-- Claim C3 witness: the spec's own example message, classified through the
first-match clause of the theorem. -/
theorem c3_classifier_first_match_witness :
    startsWith "calling external".data
      "calling external: ev_default_loop(0)".data = true ∧
    classify "calling external: ev_default_loop(0)".data =
      "calling-external".data :=
  ⟨by decide,
    c3_classifier_first_match.2.2.2.1 "calling external: ev_default_loop(0)".data
      (by decide)⟩

/-! ## Claim C2 -/

/-- Bool-to-Prop bridge for one adjacent character pair. -/
lemma pairOK_iff {a b : Char} :
    ((a == '\n' && b == '\n') = false) ↔ ¬(a = '\n' ∧ b = '\n') := by
  simp [Bool.and_eq_false_iff, beq_eq_false_iff_ne, not_and_or]

/-- Unfolding `nnFree` one step. -/
lemma nnFree_cons_cons {a b : Char} {t : Str} :
    nnFree (a :: b :: t) ↔ ¬(a = '\n' ∧ b = '\n') ∧ nnFree (b :: t) := by
  rw [show nnFree (a :: b :: t) =
    ((!(a == '\n' && b == '\n') && noNN (b :: t)) = true) from rfl]
  rw [Bool.and_eq_true, Bool.not_eq_true', pairOK_iff]

/-- Concatenation introduces no consecutive newlines when neither part has
any and the junction is not newline-against-newline. -/
lemma nnFree_append : ∀ {a b : Str}, nnFree a → nnFree b →
    (a.getLast? ≠ some '\n' ∨ b.head? ≠ some '\n') → nnFree (a ++ b) := by
  intro a
  induction a with
  | nil => intro b _ hb _; simpa using hb
  | cons x a' ih =>
    intro b ha hb hab
    cases a' with
    | nil =>
      cases b with
      | nil => simpa using ha
      | cons y t =>
        rw [List.singleton_append, nnFree_cons_cons]
        refine ⟨?_, hb⟩
        intro hcon
        obtain ⟨h1, h2⟩ := hcon
        cases hab with
        | inl h => exact h (by simp [h1])
        | inr h => exact h (by simp [h2])
    | cons x' t' =>
      rw [List.cons_append]
      have ha' := nnFree_cons_cons.mp ha
      have hrec : nnFree ((x' :: t') ++ b) := by
        refine ih ha'.2 hb ?_
        cases hab with
        | inl h => exact Or.inl (by rwa [List.getLast?_cons_cons] at h)
        | inr h => exact Or.inr h
      exact nnFree_cons_cons.mpr ⟨ha'.1, hrec⟩

/-- A string without any newline has no consecutive ones. -/
lemma nnFree_of_no_nl : ∀ {s : Str}, (∀ c ∈ s, c ≠ '\n') → nnFree s := by
  intro s
  induction s with
  | nil => intro _; rfl
  | cons a t ih =>
    intro h
    cases t with
    | nil => rfl
    | cons b t' =>
      refine nnFree_cons_cons.mpr
        ⟨?_, ih (fun c hc => h c (List.mem_cons_of_mem _ hc))⟩
      intro hcon
      exact h a (by simp) hcon.1

/-- Prepending the separator to a fragment starting with `<` stays free of
consecutive newlines. -/
lemma nnFree_nl_cons {s : Str} (hs : nnFree s) (hh : s.head? = some '<') :
    nnFree ('\n' :: s) := by
  cases s with
  | nil => simp at hh
  | cons y t =>
    have hy : y = '<' := by simpa using hh
    refine nnFree_cons_cons.mpr ⟨?_, hs⟩
    intro hcon
    rw [hy] at hcon
    exact absurd hcon.2 (by decide)

/-- A wrapped fragment is non-empty. -/
lemma wrapped_ne_nil {s : Str} (h : wrapped s) : s ≠ [] := by
  intro e
  rw [e] at h
  simpa using h.2.1

/-- Joining wrapped fragments with the newline separator yields a wrapped
fragment. -/
lemma wrapped_joinSep : ∀ l : List Str, (∀ s ∈ l, wrapped s) → l ≠ [] →
    wrapped (joinSep nl l) := by
  intro l
  induction l with
  | nil => intro _ h; exact absurd rfl h
  | cons s t ih =>
    intro hall _
    cases t with
    | nil => simpa [joinSep] using hall s (by simp)
    | cons u r =>
      have hs : wrapped s := hall s (by simp)
      have hrest : wrapped (joinSep nl (u :: r)) :=
        ih (fun x hx => hall x (List.mem_cons_of_mem _ hx)) (by simp)
      have hjne : joinSep nl (u :: r) ≠ [] := wrapped_ne_nil hrest
      have hsne : s ≠ [] := wrapped_ne_nil hs
      rw [joinSep]
      refine ⟨?_, ?_, ?_⟩
      · rw [List.append_assoc]
        refine nnFree_append hs.1 ?_ (Or.inl (by rw [hs.2.2]; decide))
        exact nnFree_nl_cons hrest.1 hrest.2.1
      · rw [List.append_assoc, List.head?_append_of_ne_nil _ hsne, hs.2.1]
      · rw [List.getLast?_append_of_ne_nil _ hjne, hrest.2.2]

/-- `mkString` of tidy pieces is tidy: the empty pieces are filtered away and
the wrapped ones join into a wrapped fragment. -/
lemma tidy_mkString {ss : List Str} (h : ∀ s ∈ ss, tidy s) :
    tidy (mkString ss nl) := by
  unfold mkString
  by_cases hf : filterNE ss = []
  · rw [hf]; exact Or.inl rfl
  · refine Or.inr (wrapped_joinSep _ ?_ hf)
    intro s hs
    unfold filterNE at hs
    obtain ⟨h1, h2⟩ := List.mem_filter.mp hs
    cases h s h1 with
    | inl he => rw [he] at h2; simp at h2
    | inr hw => exact hw

/-- Decimal digit strings contain no newline. -/
lemma natToStr_no_nl : ∀ n : Nat, ∀ c ∈ natToStr n, c ≠ '\n' := by
  have hd : ∀ d : Nat, d < 10 → Char.ofNat (48 + d) ≠ '\n' := by decide
  intro n
  induction n using Nat.strong_induction_on with
  | _ n ih =>
    intro c hc
    rw [natToStr] at hc
    split at hc
    · next h =>
      have he : c = Char.ofNat (48 + n) := by simpa using hc
      exact he ▸ hd n h
    · next h =>
      rcases List.mem_append.mp hc with h1 | h2
      · exact ih (n / 10) (Nat.div_lt_self (by omega) (by omega)) c h1
      · have he : c = Char.ofNat (48 + n % 10) := by simpa using h2
        exact he ▸ hd (n % 10) (Nat.mod_lt _ (by omega))

/-- `Point::toXML` output is tidy unconditionally: its only variable parts
are decimal digit strings. -/
lemma point_toXML_tidy (p : Point) : tidy p.toXML := by
  rw [Point.toXML]
  split
  · exact Or.inl rfl
  · refine Or.inr ⟨nnFree_of_no_nl ?_, ?_, ?_⟩
    · intro c hc
      rcases List.mem_append.mp hc with hc | hc
      · rcases List.mem_append.mp hc with hc | hc
        · rcases List.mem_append.mp hc with hc | hc
          · rcases List.mem_append.mp hc with hc | hc
            · exact (by decide : ∀ x ∈ "<point column=\"".data, x ≠ '\n') c hc
            · exact natToStr_no_nl _ c hc
          · exact (by decide : ∀ x ∈ "\" line=\"".data, x ≠ '\n') c hc
        · exact natToStr_no_nl _ c hc
      · exact (by decide : ∀ x ∈ "\"/>".data, x ≠ '\n') c hc
    · rw [(by decide :
        "<point column=\"".data = '<' :: "point column=\"".data)]
      rfl
    · rw [(by decide : "\"/>".data = ['"', '/'] ++ ['>']),
        ← List.append_assoc, List.getLast?_concat]

/-- `File::toXML` output is tidy when the path has no consecutive
newlines. -/
lemma file_toXML_tidy (f : File) (h : nnFree f.path) : tidy f.toXML := by
  rw [File.toXML]
  split
  · exact Or.inl rfl
  · refine Or.inr ⟨?_, ?_, ?_⟩
    · exact nnFree_append
        (nnFree_append (by decide) h (Or.inl (by decide)))
        (by decide) (Or.inr (by decide))
    · rw [(by decide :
        "<file given-path=\"".data = '<' :: "file given-path=\"".data)]
      rfl
    · rw [(by decide : "\"/>".data = ['"', '/'] ++ ['>']),
        ← List.append_assoc, List.getLast?_concat]

/-- `Function::toXML` output is tidy when the name has no consecutive
newlines. -/
lemma function_toXML_tidy (f : Function) (h : nnFree f.name) :
    tidy f.toXML := by
  rw [Function.toXML]
  split
  · exact Or.inl rfl
  · refine Or.inr ⟨?_, ?_, ?_⟩
    · exact nnFree_append
        (nnFree_append (by decide) h (Or.inl (by decide)))
        (by decide) (Or.inr (by decide))
    · rw [(by decide :
        "<function name=\"".data = '<' :: "function name=\"".data)]
      rfl
    · rw [(by decide : "\"/>".data = ['"', '/'] ++ ['>']),
        ← List.append_assoc, List.getLast?_concat]

/-- `Message::toXML` output is tidy when the text has no consecutive
newlines. -/
lemma message_toXML_tidy (m : Message) (h : Message.clean m) :
    tidy m.toXML := by
  rw [Message.toXML]
  split
  · exact Or.inl rfl
  · refine Or.inr ⟨?_, ?_, ?_⟩
    · exact nnFree_append
        (nnFree_append (by decide) h (Or.inl (by decide)))
        (by decide) (Or.inr (by decide))
    · rw [(by decide : "<message>".data = '<' :: "message>".data)]
      rfl
    · rw [(by decide : "</message>".data = "</message".data ++ ['>']),
        ← List.append_assoc, List.getLast?_concat]

/-- `Generator::toXML` output is tidy when name and version have no
consecutive newlines. -/
lemma generator_toXML_tidy (g : Generator) (h : Generator.clean g) :
    tidy g.toXML := by
  rw [Generator.toXML]
  split
  · exact Or.inl rfl
  · refine Or.inr ⟨?_, ?_, ?_⟩
    · have n1 : nnFree ("<generator name=\"".data ++ g.name) :=
        nnFree_append (by decide) h.1 (Or.inl (by decide))
      have n2 : nnFree ("<generator name=\"".data ++ g.name ++
          "\" version=\"".data) :=
        nnFree_append n1 (by decide) (Or.inr (by decide))
      have e2 : ("<generator name=\"".data ++ g.name ++
          "\" version=\"".data).getLast? = some '"' := by
        rw [List.getLast?_append_of_ne_nil _
          (by decide : "\" version=\"".data ≠ [])]
        decide
      have n3 : nnFree ("<generator name=\"".data ++ g.name ++
          "\" version=\"".data ++ g.version) :=
        nnFree_append n2 h.2 (Or.inl (by rw [e2]; decide))
      exact nnFree_append n3 (by decide) (Or.inr (by decide))
    · rw [(by decide :
        "<generator name=\"".data = '<' :: "generator name=\"".data)]
      rfl
    · rw [(by decide : "\"/>".data = ['"', '/'] ++ ['>']),
        ← List.append_assoc, List.getLast?_concat]

/-- `Range::toXML` output is tidy unconditionally. -/
lemma range_toXML_tidy (r : Range) : tidy r.toXML := by
  rw [Range.toXML]
  split
  · exact Or.inl rfl
  · refine tidy_mkString ?_
    intro s hs
    simp only [Range.pieces, List.mem_cons, List.mem_singleton,
      List.not_mem_nil, or_false] at hs
    rcases hs with rfl | rfl | rfl | rfl
    · exact Or.inr (by decide)
    · exact point_toXML_tidy _
    · exact point_toXML_tidy _
    · exact Or.inr (by decide)

/-- `Location::toXML` output is tidy on clean locations. -/
lemma location_toXML_tidy (l : Location) (h : Location.clean l) :
    tidy l.toXML := by
  rw [Location.toXML]
  split
  · exact Or.inl rfl
  · refine tidy_mkString ?_
    intro s hs
    simp only [Location.pieces, List.mem_cons, List.mem_singleton,
      List.not_mem_nil, or_false] at hs
    rcases hs with rfl | rfl | rfl | rfl | rfl | rfl
    · exact Or.inr (by decide)
    · exact file_toXML_tidy _ h.1
    · exact function_toXML_tidy _ h.2
    · exact range_toXML_tidy _
    · exact point_toXML_tidy _
    · exact Or.inr (by decide)

/-- `State::toXML` output is tidy on clean states. -/
lemma state_toXML_tidy (s : State) (h : State.clean s) : tidy s.toXML := by
  rw [State.toXML]
  split
  · exact Or.inl rfl
  · refine tidy_mkString ?_
    intro x hx
    simp only [State.pieces, List.mem_cons, List.mem_singleton,
      List.not_mem_nil, or_false] at hx
    rcases hx with rfl | rfl | rfl
    · exact Or.inr (by decide)
    · exact location_toXML_tidy _ h
    · exact Or.inr (by decide)

/-- `Trace::toXML` output is tidy on clean traces. -/
lemma trace_toXML_tidy (t : Trace) (h : Trace.clean t) : tidy t.toXML := by
  rw [Trace.toXML]
  split
  · exact Or.inl rfl
  · refine tidy_mkString ?_
    intro s hs
    rw [Trace.pieces] at hs
    rcases List.mem_cons.mp hs with rfl | hs
    · exact Or.inr (by decide)
    · rcases List.mem_append.mp hs with hs | hs
      · obtain ⟨st, hst, rfl⟩ := List.mem_map.mp hs
        exact state_toXML_tidy st (h st hst)
      · have he : s = "</trace>".data := by simpa using hs
        rw [he]
        exact Or.inr (by decide)

/-- `Issue::toXML` output is tidy on clean issues. -/
lemma issue_toXML_tidy (i : Issue) (h : Issue.clean i) : tidy i.toXML := by
  rw [Issue.toXML]
  split
  · exact Or.inl rfl
  · refine tidy_mkString ?_
    intro s hs
    simp only [Issue.pieces, List.mem_cons, List.mem_singleton,
      List.not_mem_nil, or_false] at hs
    rcases hs with rfl | rfl | rfl | rfl | rfl
    · exact Or.inr (by decide)
    · exact message_toXML_tidy _ h.1
    · exact location_toXML_tidy _ h.2.1
    · exact trace_toXML_tidy _ h.2.2
    · exact Or.inr (by decide)

/-- `Results::toXML` output is tidy on clean results. -/
lemma results_toXML_tidy (r : Results) (h : Results.clean r) :
    tidy r.toXML := by
  rw [Results.toXML]
  split
  · exact Or.inl rfl
  · refine tidy_mkString ?_
    intro s hs
    rw [Results.pieces] at hs
    rcases List.mem_cons.mp hs with rfl | hs
    · exact Or.inr (by decide)
    · rcases List.mem_append.mp hs with hs | hs
      · obtain ⟨i, hi, rfl⟩ := List.mem_map.mp hs
        exact issue_toXML_tidy i (h i hi)
      · have he : s = "</results>".data := by simpa using hs
        rw [he]
        exact Or.inr (by decide)

/-- `Metadata::toXML` output is tidy on clean metadata. -/
lemma metadata_toXML_tidy (m : Metadata) (h : Metadata.clean m) :
    tidy m.toXML := by
  rw [Metadata.toXML]
  split
  · exact Or.inl rfl
  · refine tidy_mkString ?_
    intro s hs
    simp only [Metadata.pieces, List.mem_cons, List.mem_singleton,
      List.not_mem_nil, or_false] at hs
    rcases hs with rfl | rfl | rfl
    · exact Or.inr (by decide)
    · exact generator_toXML_tidy _ h
    · exact Or.inr (by decide)

/-- `Analysis::toXML` output is tidy on clean analyses. -/
lemma analysis_toXML_tidy (a : Analysis) (h : Analysis.clean a) :
    tidy a.toXML := by
  rw [Analysis.toXML]
  split
  · exact Or.inl rfl
  · refine tidy_mkString ?_
    intro s hs
    simp only [Analysis.pieces, List.mem_cons, List.mem_singleton,
      List.not_mem_nil, or_false] at hs
    rcases hs with rfl | rfl | rfl | rfl
    · exact Or.inr (by decide)
    · exact metadata_toXML_tidy _ h.1
    · exact results_toXML_tidy _ h.2
    · exact Or.inr (by decide)

/-- The opening failure element piece is a wrapped fragment when the id is
clean. -/
lemma failure_open_wrapped (ident : Str) (h : nnFree ident) :
    wrapped ("<failure failure-id=\"".data ++ ident ++ "\">".data) := by
  refine ⟨?_, ?_, ?_⟩
  · exact nnFree_append
      (nnFree_append (by decide) h (Or.inl (by decide)))
      (by decide) (Or.inr (by decide))
  · rw [(by decide :
      "<failure failure-id=\"".data = '<' :: "failure failure-id=\"".data)]
    rfl
  · rw [(by decide : "\">".data = ['"'] ++ ['>']),
      ← List.append_assoc, List.getLast?_concat]

/-- `Failure::toXML` output is tidy on clean failures. -/
lemma failure_toXML_tidy (f : Failure) (h : Failure.clean f) :
    tidy f.toXML := by
  rw [Failure.toXML]
  split
  · exact Or.inl rfl
  · refine tidy_mkString ?_
    intro s hs
    simp only [Failure.pieces, List.mem_cons, List.mem_singleton,
      List.not_mem_nil, or_false] at hs
    rcases hs with rfl | rfl | rfl | rfl
    · exact Or.inr (failure_open_wrapped _ h.1)
    · exact location_toXML_tidy _ h.2.2
    · exact message_toXML_tidy _ h.2.1
    · exact Or.inr (by decide)

/-- Tidy output has no consecutive newlines. -/
lemma nnFree_of_tidy {s : Str} (h : tidy s) : nnFree s := by
  cases h with
  | inl e => rw [e]; rfl
  | inr w => exact w.1

/-- Claim C2 (amended): for every composite node whose leaf string fields
(file path, function name, message text, generator name/version, failure id)
contain no two consecutive newline characters, the serialization never
contains two consecutive newline separator characters with no content
between them — every child that serializes to the empty string is dropped
from the join before the remaining children are joined with the
separator. -/
theorem c2_no_blank_lines :
    (∀ r : Range, nnFree r.toXML) ∧
    (∀ l : Location, Location.clean l → nnFree l.toXML) ∧
    (∀ s : State, State.clean s → nnFree s.toXML) ∧
    (∀ t : Trace, Trace.clean t → nnFree t.toXML) ∧
    (∀ i : Issue, Issue.clean i → nnFree i.toXML) ∧
    (∀ r : Results, Results.clean r → nnFree r.toXML) ∧
    (∀ m : Metadata, Metadata.clean m → nnFree m.toXML) ∧
    (∀ a : Analysis, Analysis.clean a → nnFree a.toXML) ∧
    (∀ f : Failure, Failure.clean f → nnFree f.toXML) := by
  refine ⟨fun r => nnFree_of_tidy (range_toXML_tidy r),
    fun l h => nnFree_of_tidy (location_toXML_tidy l h),
    fun s h => nnFree_of_tidy (state_toXML_tidy s h),
    fun t h => nnFree_of_tidy (trace_toXML_tidy t h),
    fun i h => nnFree_of_tidy (issue_toXML_tidy i h),
    fun r h => nnFree_of_tidy (results_toXML_tidy r h),
    fun m h => nnFree_of_tidy (metadata_toXML_tidy m h),
    fun a h => nnFree_of_tidy (analysis_toXML_tidy a h),
    fun f h => nnFree_of_tidy (failure_toXML_tidy f h)⟩

/-- Claim C2 counterexample: a composite node built by a public constructor
whose file path contains two consecutive newlines serializes to a string
containing two consecutive newlines, so the claim fails without a
cleanliness hypothesis on the leaf strings. -/
theorem c2_no_blank_lines_counterexample :
    ¬ nnFree (Location.toXML
      (Location.fromRange ⟨"a\n\nb".data⟩ ⟨"f".data⟩ dummyRange)) := by
  decide

/-- Claim C2 witness: a concrete clean location whose serialization has no
consecutive newlines. -/
theorem c2_no_blank_lines_witness :
    Location.clean (Location.fromRange ⟨"a.c".data⟩ ⟨"f".data⟩ dummyRange) ∧
    nnFree (Location.toXML
      (Location.fromRange ⟨"a.c".data⟩ ⟨"f".data⟩ dummyRange)) :=
  ⟨by decide,
    c2_no_blank_lines.2.1
      (Location.fromRange ⟨"a.c".data⟩ ⟨"f".data⟩ dummyRange) (by decide)⟩

/-! ## Claim C8 -/

/-- The empty chunk list contains no terminating chunk. -/
lemma chunksOK_nil : chunksOK [] := ⟨List.not_mem_nil _, List.not_mem_nil _⟩

/-- `chunksOK` is closed under concatenation. -/
lemma chunksOK_append {a b : List Str} (ha : chunksOK a) (hb : chunksOK b) :
    chunksOK (a ++ b) := by
  constructor
  · intro h
    rcases List.mem_append.mp h with h | h
    · exact ha.1 h
    · exact hb.1 h
  · intro h
    rcases List.mem_append.mp h with h | h
    · exact ha.2 h
    · exact hb.2 h

/-- `mkString` on a piece list with a non-empty head starts with that
head. -/
lemma mkString_cons_head {s : Str} (ss : List Str) (h : s ≠ []) :
    ∃ t, mkString (s :: ss) nl = s ++ t := by
  have he : s.isEmpty = false := by
    cases hh : s with
    | nil => exact absurd hh h
    | cons x t => rfl
  unfold mkString filterNE
  rw [List.filter_cons, if_pos (by simp [he])]
  cases hrest : List.filter (fun s => !s.isEmpty) ss with
  | nil => exact ⟨[], by simp [joinSep]⟩
  | cons u r => exact ⟨nl ++ joinSep nl (u :: r), by rw [joinSep, List.append_assoc]⟩

/-- An info element chunk is never one of the two terminating chunks. -/
lemma info_chunk_ne (i : Info) :
    i.toXML ++ nl ≠ closeResultsChunk ∧ i.toXML ++ nl ≠ closeAnalysisChunk := by
  rw [Info.toXML]
  split
  · exact ⟨by decide, by decide⟩
  · have hne : ("<info info-id=\"".data ++ i.id ++ "\">".data) ≠ [] :=
      List.append_ne_nil_of_left_ne_nil
        (List.append_ne_nil_of_left_ne_nil (by decide) _) _
    obtain ⟨t, ht⟩ := mkString_cons_head
      [i.message.toXML, "</info>".data] hne
    rw [Info.pieces, ht]
    constructor
    · intro hcon
      injection hcon with h1 h2
      injection h2 with h3 h4
      exact absurd h3 (by decide)
    · intro hcon
      injection hcon with h1 h2
      injection h2 with h3 h4
      exact absurd h3 (by decide)

/-- A failure element chunk is never one of the two terminating chunks. -/
lemma failure_chunk_ne (f : Failure) :
    f.toXML ++ nl ≠ closeResultsChunk ∧ f.toXML ++ nl ≠ closeAnalysisChunk := by
  rw [Failure.toXML]
  split
  · exact ⟨by decide, by decide⟩
  · have hne : ("<failure failure-id=\"".data ++ f.id ++ "\">".data) ≠ [] :=
      List.append_ne_nil_of_left_ne_nil
        (List.append_ne_nil_of_left_ne_nil (by decide) _) _
    obtain ⟨t, ht⟩ := mkString_cons_head
      [f.location.toXML, f.message.toXML, "</failure>".data] hne
    rw [Failure.pieces, ht]
    constructor
    · intro hcon
      injection hcon with h1 h2
      injection h2 with h3 h4
      exact absurd h3 (by decide)
    · intro hcon
      injection hcon with h1 h2
      injection h2 with h3 h4
      exact absurd h3 (by decide)

/-- One `klee_vmessage` call keeps the file state and appends only chunks
that are not terminating chunks. -/
lemma vmessageFh_step (pfx : Option Str) (msg : Str) (f : FhFile) :
    (vmessageFh pfx msg f).isOpen = f.isOpen ∧
    ∃ add, (vmessageFh pfx msg f).chunks = f.chunks ++ add ∧ chunksOK add := by
  cases pfx with
  | none => exact ⟨rfl, [], by simp [vmessageFh], chunksOK_nil⟩
  | some p =>
    by_cases ho : f.isOpen = true
    · cases hel : firehoseElement p msg with
      | none =>
        refine ⟨?_, [], ?_, chunksOK_nil⟩ <;> simp [vmessageFh, ho, hel]
      | some e =>
        refine ⟨?_, [elemXML e ++ nl], ?_, ?_, ?_⟩
        · simp [vmessageFh, ho, hel, fhWrite]
        · simp [vmessageFh, ho, hel, fhWrite]
        · intro hm
          rw [List.mem_singleton] at hm
          cases e with
          | infoElem i => exact (info_chunk_ne i).1 hm.symm
          | failureElem fl => exact (failure_chunk_ne fl).1 hm.symm
        · intro hm
          rw [List.mem_singleton] at hm
          cases e with
          | infoElem i => exact (info_chunk_ne i).2 hm.symm
          | failureElem fl => exact (failure_chunk_ne fl).2 hm.symm
    · refine ⟨?_, [], ?_, chunksOK_nil⟩ <;> simp [vmessageFh, ho]

/-- One run over the events, from an open file whose chunks carry no
terminating chunk: without an error event the file stays open and never
receives a terminating chunk; with an error event the run ends closed, the
chunks end with the two terminating chunks exactly once, and a non-empty
terminator-free segment (the error's own element is part of it) precedes
them. -/
lemma runEvents_spec : ∀ (evs : List Event) (f : FhFile) (st : OnceState),
    f.isOpen = true → chunksOK f.chunks →
    (hasErrorEvent evs = false →
      (runEvents f st evs).isOpen = true ∧
      chunksOK (runEvents f st evs).chunks) ∧
    (hasErrorEvent evs = true →
      (runEvents f st evs).isOpen = false ∧
      ∃ pre, (runEvents f st evs).chunks =
        pre ++ [closeResultsChunk, closeAnalysisChunk] ∧
        pre ≠ [] ∧ chunksOK pre) := by
  intro evs
  induction evs with
  | nil =>
    intro f st ho hok
    exact ⟨fun _ => ⟨ho, hok⟩, fun h => by simp [hasErrorEvent] at h⟩
  | cons e rest ih =>
    intro f st ho hok
    cases e with
    | message m =>
      obtain ⟨hoS, add, hch, hadd⟩ := vmessageFh_step none m f
      simp only [runEvents, hasErrorEvent]
      refine ih _ st (by rw [hoS]; exact ho) ?_
      rw [hch]
      exact chunksOK_append hok hadd
    | warning m =>
      obtain ⟨hoS, add, hch, hadd⟩ := vmessageFh_step (some "WARNING".data) m f
      simp only [runEvents, hasErrorEvent]
      refine ih _ st (by rw [hoS]; exact ho) ?_
      rw [hch]
      exact chunksOK_append hok hadd
    | warningOnce o m =>
      simp only [runEvents, hasErrorEvent]
      by_cases hr : (shouldEmitOnce st o m).1 = true
      · rw [if_pos hr]
        obtain ⟨hoS, add, hch, hadd⟩ :=
          vmessageFh_step (some "WARNING ONCE".data) m f
        refine ih _ _ (by rw [hoS]; exact ho) ?_
        rw [hch]
        exact chunksOK_append hok hadd
      · rw [if_neg hr]
        exact ih f _ ho hok
    | errorEvent m =>
      simp only [runEvents, hasErrorEvent]
      refine ⟨fun h => by simp at h, fun _ => ?_⟩
      have hel : firehoseElement "ERROR".data m =
          some (FirehoseElem.failureElem ⟨classify m, ⟨m⟩, dummyLocation⟩) :=
        rfl
      have hrun : kleeError m f =
          ⟨false, f.chunks ++
            [Failure.toXML ⟨classify m, ⟨m⟩, dummyLocation⟩ ++ nl,
              closeResultsChunk, closeAnalysisChunk]⟩ := by
        simp [kleeError, vmessageFh, ho, hel, fhWrite, elemXML,
          closeFirehoseFile]
      rw [hrun]
      refine ⟨rfl,
        f.chunks ++ [Failure.toXML ⟨classify m, ⟨m⟩, dummyLocation⟩ ++ nl],
        ?_, ?_, ?_⟩
      · simp [List.append_assoc]
      · exact List.append_ne_nil_of_right_ne_nil _ (List.cons_ne_nil _ _)
      · refine chunksOK_append hok ⟨?_, ?_⟩
        · intro hm
          rw [List.mem_singleton] at hm
          exact (failure_chunk_ne _).1 hm.symm
        · intro hm
          rw [List.mem_singleton] at hm
          exact (failure_chunk_ne _).2 hm.symm

/-- Claim C8: over any process run started with an open report file, the two
terminating markup chunks closing the results and analysis blocks are
written exactly once — as the final two chunks, written before the file is
closed, with markup already in the file before them — precisely when the
run ends in `klee_error`; a run without an error writes no terminating
chunk and leaves the file open. -/
theorem c8_close_writes_terminators :
    ∀ evs : List Event,
      (hasErrorEvent evs = false →
        (runEvents ⟨true, []⟩ ⟨[]⟩ evs).isOpen = true ∧
        closeResultsChunk ∉ (runEvents ⟨true, []⟩ ⟨[]⟩ evs).chunks ∧
        closeAnalysisChunk ∉ (runEvents ⟨true, []⟩ ⟨[]⟩ evs).chunks) ∧
      (hasErrorEvent evs = true →
        (runEvents ⟨true, []⟩ ⟨[]⟩ evs).isOpen = false ∧
        (runEvents ⟨true, []⟩ ⟨[]⟩ evs).chunks =
          (runEvents ⟨true, []⟩ ⟨[]⟩ evs).chunks.dropLast.dropLast ++
            [closeResultsChunk, closeAnalysisChunk] ∧
        (runEvents ⟨true, []⟩ ⟨[]⟩ evs).chunks.dropLast.dropLast ≠ [] ∧
        closeResultsChunk ∉
          (runEvents ⟨true, []⟩ ⟨[]⟩ evs).chunks.dropLast.dropLast ∧
        closeAnalysisChunk ∉
          (runEvents ⟨true, []⟩ ⟨[]⟩ evs).chunks.dropLast.dropLast) := by
  intro evs
  have hs := runEvents_spec evs ⟨true, []⟩ ⟨[]⟩ rfl chunksOK_nil
  refine ⟨fun h => ?_, fun h => ?_⟩
  · obtain ⟨ho, hok⟩ := hs.1 h
    exact ⟨ho, hok.1, hok.2⟩
  · obtain ⟨ho, pre, heq, hne, hok⟩ := hs.2 h
    have hdrop : (runEvents ⟨true, []⟩ ⟨[]⟩ evs).chunks.dropLast.dropLast =
        pre := by
      rw [heq,
        show pre ++ [closeResultsChunk, closeAnalysisChunk] =
          (pre ++ [closeResultsChunk]) ++ [closeAnalysisChunk] by
          rw [List.append_assoc]; rfl,
        List.dropLast_concat, List.dropLast_concat]
    rw [hdrop]
    exact ⟨ho, heq, hne, hok.1, hok.2⟩

/-- Claim C8 witness: a run with one warning and one error writes the
element chunks and then the two terminating chunks, once, before closing. -/
theorem c8_close_writes_terminators_witness :
    hasErrorEvent [Event.warning "w".data, Event.errorEvent "e".data] =
      true ∧
    ((runEvents ⟨true, []⟩ ⟨[]⟩
        [Event.warning "w".data, Event.errorEvent "e".data]).isOpen = false ∧
      (runEvents ⟨true, []⟩ ⟨[]⟩
        [Event.warning "w".data, Event.errorEvent "e".data]).chunks =
        (runEvents ⟨true, []⟩ ⟨[]⟩
          [Event.warning "w".data,
            Event.errorEvent "e".data]).chunks.dropLast.dropLast ++
          [closeResultsChunk, closeAnalysisChunk] ∧
      (runEvents ⟨true, []⟩ ⟨[]⟩
        [Event.warning "w".data,
          Event.errorEvent "e".data]).chunks.dropLast.dropLast ≠ [] ∧
      closeResultsChunk ∉
        (runEvents ⟨true, []⟩ ⟨[]⟩
          [Event.warning "w".data,
            Event.errorEvent "e".data]).chunks.dropLast.dropLast ∧
      closeAnalysisChunk ∉
        (runEvents ⟨true, []⟩ ⟨[]⟩
          [Event.warning "w".data,
            Event.errorEvent "e".data]).chunks.dropLast.dropLast) :=
  ⟨by decide,
    (c8_close_writes_terminators
      [Event.warning "w".data, Event.errorEvent "e".data]).2 (by decide)⟩

end Firehose
